import Mathlib

/-!
Shallow embedding of the ZIP-ingestion core of the price-prediction
pipeline (`src/ingest_data.py`): archive validation, extraction into a
directory, discovery of tabular files, per-file CSV/TSV parsing and the
concatenation policy, together with the extension-dispatch factory.

Filesystem state is modelled explicitly: a directory is a list of named
entries (regular files with contents, or subdirectories), an archive is a
list of (entry-name, content) pairs, and the input path is abstracted to
whether it exists and whether it is a structurally valid ZIP container.

String primitives (lower-casing, suffix test, splitting on a separator
character) are implemented by structural recursion on the underlying
character list so that every definition evaluates by kernel reduction;
they have the semantics of the Python `str` operations used by the source
(ASCII case folding, which covers every name the source manipulates).
-/

namespace IngestData

/-! ### String primitives -/

/-- `str.lower()` (ASCII case folding). -/
def lowerStr (s : String) : String :=
  ⟨s.data.map Char.toLower⟩

/-- `str.endswith(t)`: the last `t.length` characters of `s` equal `t`. -/
def endsWithStr (s t : String) : Bool :=
  s.data.drop (s.data.length - t.data.length) == t.data

/-- Split a character list on a separator character; mirrors Python
`str.split(sep)` for a one-character separator (and `String.splitOn`). -/
def splitOnCl (sep : Char) : List Char → List (List Char)
  | [] => [[]]
  | c :: cs =>
      match splitOnCl sep cs with
      | [] => if c = sep then [[], []] else [[c]]
      | w :: ws => if c = sep then [] :: w :: ws else (c :: w) :: ws

def splitOnChar (sep : Char) (s : String) : List String :=
  (splitOnCl sep s.data).map (fun cs => ⟨cs⟩)

/-- Does the string contain the character? -/
def containsChar (s : String) (c : Char) : Bool :=
  s.data.any (fun x => x == c)

/-! ### The in-memory table (pandas DataFrame abstraction)

A table is an ordered list of column names plus rows of optional cell
values (`none` models a missing value / NaN gap). -/

structure DataFrame where
  columns : List String
  rows : List (List (Option String))
deriving DecidableEq

/-! ### Tabular parsing (`pandas.read_csv` with an explicit separator)

Content is split into lines (blank lines skipped, matching the default
`skip_blank_lines=True`), the first line is the header, and each later
line is split on the separator character. -/

def splitLines (content : String) : List String :=
  (splitOnChar '\n' content).filter (fun l => l ≠ "")

def splitFields (sep : Char) (line : String) : List String :=
  splitOnChar sep line

def parseTable (sep : Char) (content : String) : DataFrame :=
  match splitLines content with
  | [] => ⟨[], []⟩
  | header :: rest =>
      ⟨splitFields sep header, rest.map (fun l => (splitFields sep l).map some)⟩

/-- `f.lower().endswith(('.csv', '.tsv'))` from the discovery step. -/
def isDataFile (f : String) : Bool :=
  endsWithStr (lowerStr f) ".csv" || endsWithStr (lowerStr f) ".tsv"

/-- The per-file separator choice: `sep='\t'` when the lower-cased name
ends in `.tsv`, otherwise the `read_csv` default comma. -/
def sepFor (fname : String) : Char :=
  if endsWithStr (lowerStr fname) ".tsv" then '\t' else ','

/-! ### Directories and ZIP archives -/

inductive DirEntry
  | file (name : String) (content : String)
  | subdir (name : String)
deriving DecidableEq

def DirEntry.name : DirEntry → String
  | .file n _ => n
  | .subdir n => n

/-- `os.listdir`: the names of the entries of a directory. -/
def listdir (d : List DirEntry) : List String :=
  d.map DirEntry.name

structure ZipArchive where
  entries : List (String × String)
deriving DecidableEq

/-- Writing an entry into a directory: an entry of the same name is
overwritten in place, otherwise the entry is appended. -/
def replaceEntry (y x : DirEntry) : DirEntry :=
  if x.name = y.name then y else x

def insertEntry (d : List DirEntry) (y : DirEntry) : List DirEntry :=
  if (listdir d).contains y.name then d.map (replaceEntry y) else d ++ [y]

def insertAll (d : List DirEntry) (ys : List DirEntry) : List DirEntry :=
  ys.foldl insertEntry d

/-- First path component of an archive entry name. -/
def topName (s : String) : String :=
  (splitOnChar '/' s).headD ""

/-- The top-level directory entry created by extracting one archive
entry: a nested entry (name containing `/`) surfaces only as its
top-level subdirectory; a flat entry becomes a regular file. -/
def toDirEntry (e : String × String) : DirEntry :=
  if containsChar e.1 '/' then .subdir (topName e.1) else .file e.1 e.2

/-- `ZipFile.extractall(target_dir)`: write every entry, in archive
order, into the directory. -/
def extractAll (z : ZipArchive) (d : List DirEntry) : List DirEntry :=
  insertAll d (z.entries.map toDirEntry)

/-- Reading a named regular file from a directory. -/
def readFile (d : List DirEntry) (n : String) : Option String :=
  d.findSome? (fun e =>
    match e with
    | .file m c => if m = n then some c else none
    | .subdir _ => none)

/-! ### The ingestion operation (`ZipDataIngestor.ingest`)

The input path is abstracted to the three cases the validation prologue
distinguishes, in the order the source checks them: `os.path.exists`
first, `zipfile.is_zipfile` (the internal format marker, independent of
the file name) second. -/

inductive PathState
  | absent
  | nonZipFile (content : String)
  | zipFile (z : ZipArchive)
deriving DecidableEq

/-- The error taxonomy of the spec. In the source, `notFound` is a
`FileNotFoundError` and the others are `ValueError`s distinguished by
message; `readError` is the OS-level error `pandas.read_csv` raises when
a discovered name is not a readable regular file. -/
inductive IngestError
  | notFound
  | invalidFormat
  | noDataFound
  | multipleFiles
  | readError
deriving DecidableEq

/-- Parse one discovered file: `pd.read_csv(p, sep='\t')` when the
lower-cased name ends in `.tsv`, plain `pd.read_csv(p)` otherwise. -/
def parseDataFile (d : List DirEntry) (n : String) : Except IngestError DataFrame :=
  match readFile d n with
  | some c => .ok (parseTable (sepFor n) c)
  | none => .error .readError

/-- The `for p in data_paths: dfs.append(...)` loop: parse each file in
order, propagating the first failure. -/
def mapExceptList (f : α → Except IngestError DataFrame) :
    List α → Except IngestError (List DataFrame)
  | [] => .ok []
  | a :: as =>
      match f a with
      | .error e => .error e
      | .ok b =>
          match mapExceptList f as with
          | .error e => .error e
          | .ok bs => .ok (b :: bs)

/-! ### `pd.concat(dfs, ignore_index=True)`

Default outer-join column alignment: the result's columns are the union
of the inputs' columns in order of first appearance; each row is aligned
to that union, with `none` in columns its frame does not have; rows are
stacked in input order and the row index is the fresh contiguous list
position. -/

def addCols (acc cols : List String) : List String :=
  acc ++ cols.filter (fun c => !(acc.contains c))

/-- First index of a column name in a column list. -/
def colIndex : List String → String → Option Nat
  | [], _ => none
  | a :: tl, c => if a = c then some 0 else (colIndex tl c).map (· + 1)

def alignRow (allCols cols : List String) (row : List (Option String)) :
    List (Option String) :=
  allCols.map (fun c =>
    match colIndex cols c with
    | some i => (row.get? i).getD none
    | none => none)

/-- The union of the inputs' columns in order of first appearance. -/
def unionCols (dfs : List DataFrame) : List String :=
  dfs.foldl (fun acc d => addCols acc d.columns) []

def concatDFs (dfs : List DataFrame) : DataFrame :=
  ⟨unionCols dfs,
   dfs.flatMap (fun d => d.rows.map (alignRow (unionCols dfs) d.columns))⟩

/-- The scan–parse–merge logic that runs on the populated extraction
directory: discovery, the zero/one/many split, and the concat policy. -/
def loadFromDir (d : List DirEntry) (concat : Bool) : Except IngestError DataFrame :=
  match (listdir d).filter isDataFile with
  | [] => .error .noDataFound
  | [f] => parseDataFile d f
  | f1 :: f2 :: rest =>
      if !concat then .error .multipleFiles
      else (mapExceptList (parseDataFile d) (f1 :: f2 :: rest)).map concatDFs

/-- `ZipDataIngestor.ingest` with a caller-supplied extraction target,
returning the result together with the extraction directory's contents
after the call (extraction happens before discovery, so the directory is
populated even on the error paths past validation). -/
def ingest (path : PathState) (extractDir : List DirEntry) (concat : Bool) :
    Except IngestError DataFrame × List DirEntry :=
  match path with
  | .absent => (.error .notFound, extractDir)
  | .nonZipFile _ => (.error .invalidFormat, extractDir)
  | .zipFile z =>
      let d := extractAll z extractDir
      (loadFromDir d concat, d)

/-- Modelled from the spec: the ephemeral extraction mode is not present
in `src/src/ingest_data.py` (its `temp_dir_ctx` variable is always
`None` and the `tempfile` import is unused); the spec describes it as an
implementation variant with "scoped acquisition of a temporary directory
with guaranteed release (deletion) on every exit path, including
exceptions raised during parsing". Validation runs first; then a fresh
empty temporary directory is acquired, the archive is extracted into it,
the loader runs, and the directory is deleted when the scope exits,
whether the loader returned a table or failed. The second component
records whether the temporary directory still exists after the call. -/
def ingestEphemeral (path : PathState) (concat : Bool) :
    Except IngestError DataFrame × Bool :=
  match path with
  | .absent => (.error .notFound, false)
  | .nonZipFile _ => (.error .invalidFormat, false)
  | .zipFile z =>
      let tempDir : List DirEntry := []
      let d := extractAll z tempDir
      let result := loadFromDir d concat
      (result, false)

/-! ### The dispatch factory (`DataIngestionFactory`) -/

inductive DataIngestorKind
  | zipDataIngestor
deriving DecidableEq

inductive FactoryError
  | unsupportedType
deriving DecidableEq

/-- `DataIngestionFactory.get_ingestor`: exact match on `".zip"`, error
for every other extension string. -/
def get_ingestor (file_extension : String) : Except FactoryError DataIngestorKind :=
  if file_extension = ".zip" then .ok .zipDataIngestor
  else .error .unsupportedType

/-- `os.path.splitext(p)[1]`: the extension of the basename, empty when
the basename has no dot or only leading dots. -/
def splitext_ext (p : String) : String :=
  let b := (splitOnChar '/' p).getLastD ""
  let parts := splitOnChar '.' b
  match parts with
  | [] => ""
  | [_] => ""
  | _ =>
      if parts.dropLast.any (fun s => s ≠ "") then "." ++ parts.getLastD ""
      else ""

/-- `DataIngestionFactory.get_ingestor_for_path`: split off the
extension, lower-case it, and dispatch. -/
def get_ingestor_for_path (file_path : String) : Except FactoryError DataIngestorKind :=
  get_ingestor (lowerStr (splitext_ext file_path))

/-! ### Concrete fixtures

Archives and directories taken from the spec's testable properties and
the repository's test suite. -/

def zipTwoCsv : ZipArchive :=
  ⟨[("one.csv", "x,y\n10,100\n20,200\n"), ("two.csv", "x,y\n30,300\n40,400\n")]⟩

def zipMixedCols : ZipArchive :=
  ⟨[("a.csv", "x\n1\n"), ("b.csv", "y\n2\n")]⟩

def zipOneTsv : ZipArchive :=
  ⟨[("data.tsv", "a\tb\n1\t2\n")]⟩

def zipNoData : ZipArchive :=
  ⟨[("readme.txt", "hello")]⟩

def zipNestedCsv : ZipArchive :=
  ⟨[("sub/a.csv", "x\n1\n")]⟩

/-- A ZIP mixing a flat non-tabular entry with a nested CSV: its only
tabular entry lies inside a subdirectory. -/
def zipNestedFlat : ZipArchive :=
  ⟨[("readme.txt", "hello"), ("sub/a.csv", "x\n1\n")]⟩

def zipOneCsv : ZipArchive :=
  ⟨[("a.csv", "x,y\n3,4\n")]⟩

/-- A caller-supplied extraction target that already holds a CSV file
that is not an entry of any fixture archive. -/
def preDir : List DirEntry :=
  [.file "pre.csv" "x,y\n1,2\n"]

/-- The parse of `one.csv` of `zipTwoCsv`. -/
def dfOne : DataFrame :=
  ⟨["x", "y"], [[some "10", some "100"], [some "20", some "200"]]⟩

/-- The parse of `two.csv` of `zipTwoCsv`. -/
def dfTwo : DataFrame :=
  ⟨["x", "y"], [[some "30", some "300"], [some "40", some "400"]]⟩

/-- The last entry of `ys` named `n`, if any: the value a name holds
after all of `ys` has been written into a directory. -/
def lastFor : List DirEntry → String → Option DirEntry
  | [], _ => none
  | y :: tl, n =>
      match lastFor tl n with
      | some r => some r
      | none => if y.name = n then some y else none

/-- Replace an entry by the last same-named entry of `ys`, if any. -/
def overrideLast (ys : List DirEntry) (x : DirEntry) : DirEntry :=
  match lastFor ys x.name with
  | some y => y
  | none => x

/-! ### Helper lemmas about directories and extraction -/

lemma name_replaceEntry (y x : DirEntry) : (replaceEntry y x).name = x.name := by
  unfold replaceEntry
  split
  · next h => exact h.symm
  · rfl

lemma listdir_map_replace (d : List DirEntry) (y : DirEntry) :
    listdir (d.map (replaceEntry y)) = listdir d := by
  unfold listdir
  rw [List.map_map]
  congr 1
  funext x
  exact name_replaceEntry y x

lemma listdir_insertEntry (d : List DirEntry) (y : DirEntry) :
    listdir (insertEntry d y) =
      if (listdir d).contains y.name then listdir d else listdir d ++ [y.name] := by
  unfold insertEntry
  split
  · exact listdir_map_replace d y
  · unfold listdir; rw [List.map_append]; rfl

lemma contains_iff_mem (l : List String) (n : String) : l.contains n = true ↔ n ∈ l := by
  simp [List.contains, List.elem_iff]

lemma mem_listdir_insertEntry (d : List DirEntry) (y : DirEntry) (n : String)
    (h : n ∈ listdir d) : n ∈ listdir (insertEntry d y) := by
  rw [listdir_insertEntry]
  split
  · exact h
  · exact List.mem_append_left _ h

lemma insertAll_cons (d : List DirEntry) (y : DirEntry) (tl : List DirEntry) :
    insertAll d (y :: tl) = insertAll (insertEntry d y) tl := rfl

lemma mem_listdir_insertAll (ys d : List DirEntry) (n : String)
    (h : n ∈ listdir d) : n ∈ listdir (insertAll d ys) := by
  induction ys generalizing d with
  | nil => exact h
  | cons y tl ih => exact ih _ (mem_listdir_insertEntry d y n h)

lemma name_mem_insertEntry_self (d : List DirEntry) (y : DirEntry) :
    y.name ∈ listdir (insertEntry d y) := by
  rw [listdir_insertEntry]
  split
  · next h => exact (contains_iff_mem _ _).mp h
  · exact List.mem_append_right _ (List.mem_singleton_self _)

lemma name_mem_listdir_insertAll (ys d : List DirEntry) (y : DirEntry)
    (h : y ∈ ys) : y.name ∈ listdir (insertAll d ys) := by
  induction ys generalizing d with
  | nil => cases h
  | cons y0 tl ih =>
      rcases List.mem_cons.mp h with rfl | h'
      · exact mem_listdir_insertAll tl _ _ (name_mem_insertEntry_self d y)
      · exact ih _ h'

/-- The scan–parse–merge logic on a directory with no tabular files. -/
lemma loadFromDir_of_no_data (d : List DirEntry) (concat : Bool)
    (h : (listdir d).filter isDataFile = []) :
    loadFromDir d concat = .error .noDataFound := by
  unfold loadFromDir
  rw [h]

/-- The scan–parse–merge logic on a directory with exactly one tabular file. -/
lemma loadFromDir_of_single (d : List DirEntry) (concat : Bool) (f : String)
    (h : (listdir d).filter isDataFile = [f]) :
    loadFromDir d concat = parseDataFile d f := by
  unfold loadFromDir
  rw [h]

/-- The scan–parse–merge logic on a directory with at least two tabular
files, with merging declined. -/
lemma loadFromDir_of_multi_no_concat (d : List DirEntry) (f1 f2 : String)
    (rest : List String)
    (h : (listdir d).filter isDataFile = f1 :: f2 :: rest) :
    loadFromDir d false = .error .multipleFiles := by
  unfold loadFromDir
  rw [h]
  rfl

/-- The scan–parse–merge logic on a directory with at least two tabular
files, with merging requested. -/
lemma loadFromDir_of_multi_concat (d : List DirEntry) (f1 f2 : String)
    (rest : List String)
    (h : (listdir d).filter isDataFile = f1 :: f2 :: rest) :
    loadFromDir d true =
      (mapExceptList (parseDataFile d) (f1 :: f2 :: rest)).map concatDFs := by
  unfold loadFromDir
  rw [h]
  rfl

/-! ### Claim theorems -/

/-- C1: In ephemeral mode, the temporary extraction directory is deleted
on every exit path of the ingest operation: for every ingestion call that
uses an ephemeral extraction target, once the call returns — whether it
returns a unified table or raises an error during parsing — the
temporary directory no longer exists on the filesystem. (The ephemeral
mode is modelled from the spec; see `ingestEphemeral`.) -/
theorem c1_ephemeral_dir_released (path : PathState) (concat : Bool) :
    (ingestEphemeral path concat).2 = false := by
  cases path <;> rfl

/-- C3: An input path that does not exist fails with `NotFoundError`
(even though such a path is also not a valid ZIP, i.e. the existence
check runs first), and a path that exists but is not a structurally
valid ZIP container fails with `InvalidFormatError`, in both cases
leaving the extraction target untouched. -/
theorem c3_validation_errors :
    (∀ (dir : List DirEntry) (concat : Bool),
        ingest .absent dir concat = (.error .notFound, dir))
    ∧ (∀ (s : String) (dir : List DirEntry) (concat : Bool),
        ingest (.nonZipFile s) dir concat = (.error .invalidFormat, dir)) :=
  ⟨fun _ _ => rfl, fun _ _ _ => rfl⟩

/-- C4: For every valid ZIP archive whose extraction yields zero
discovered files with extension `.csv` or `.tsv`, ingestion fails with
`NoDataFoundError` and does not return a table. -/
theorem c4_no_data_found (z : ZipArchive) (dir : List DirEntry) (concat : Bool)
    (h : (listdir (extractAll z dir)).filter isDataFile = []) :
    ingest (.zipFile z) dir concat = (.error .noDataFound, extractAll z dir) := by
  show (loadFromDir (extractAll z dir) concat, extractAll z dir) = _
  rw [loadFromDir_of_no_data _ _ h]

/-- Witness for C4 at a ZIP whose only entry is `readme.txt`. -/
theorem c4_no_data_found_witness :
    ingest (.zipFile zipNoData) [] true = (.error .noDataFound, extractAll zipNoData []) :=
  c4_no_data_found zipNoData [] true rfl

/-- C5: For every ingestion call with `concat = false` where more than
one tabular file is discovered, the call fails with
`MultipleFilesError` rather than returning a table built from any
subset of the files. -/
theorem c5_multiple_files_error (z : ZipArchive) (dir : List DirEntry)
    (h : 2 ≤ ((listdir (extractAll z dir)).filter isDataFile).length) :
    ingest (.zipFile z) dir false = (.error .multipleFiles, extractAll z dir) := by
  rcases hfs : (listdir (extractAll z dir)).filter isDataFile with _ | ⟨f1, _ | ⟨f2, rest⟩⟩
  · rw [hfs] at h; simp at h
  · rw [hfs] at h; simp at h
  · show (loadFromDir (extractAll z dir) false, extractAll z dir) = _
    rw [loadFromDir_of_multi_no_concat _ f1 f2 rest hfs]

/-- Witness for C5 at the two-CSV ZIP. -/
theorem c5_multiple_files_error_witness :
    ingest (.zipFile zipTwoCsv) [] false = (.error .multipleFiles, extractAll zipTwoCsv []) :=
  c5_multiple_files_error zipTwoCsv [] (by decide)

/-- C7: The dispatch factory is a pure, stateless lookup on the
normalized (lower-cased) extension: the path-based entry point splits
off the extension, lower-cases it and dispatches; extension `".zip"`
yields the ZIP ingestor; every other extension string fails with
`UnsupportedTypeError`. -/
theorem c7_factory_dispatch :
    (∀ (file_path : String),
        get_ingestor_for_path file_path =
          get_ingestor (lowerStr (splitext_ext file_path)))
    ∧ get_ingestor ".zip" = .ok .zipDataIngestor
    ∧ (∀ (e : String), e ≠ ".zip" → get_ingestor e = .error .unsupportedType) :=
  ⟨fun _ => rfl, rfl, fun e he => by simp [get_ingestor, he]⟩

/-- Witness for C7 at the unsupported extension `".tar"`. -/
theorem c7_factory_dispatch_witness :
    get_ingestor ".tar" = .error .unsupportedType :=
  c7_factory_dispatch.2.2 ".tar" (by decide)

lemma mem_listdir_insertAll_src (ys d : List DirEntry) (n : String)
    (h : n ∈ listdir (insertAll d ys)) :
    n ∈ listdir d ∨ n ∈ ys.map DirEntry.name := by
  induction ys generalizing d with
  | nil => exact Or.inl h
  | cons y tl ih =>
      rcases ih (insertEntry d y) h with h' | h'
      · rw [listdir_insertEntry] at h'
        split at h'
        · exact Or.inl h'
        · rcases List.mem_append.mp h' with h'' | h''
          · exact Or.inl h''
          · exact Or.inr (by simp [List.mem_singleton.mp h''])
      · exact Or.inr (List.mem_cons_of_mem _ h')

/-- C6: Discovery selects exactly the directory entries whose extension,
compared case-insensitively, is `.csv` or `.tsv`, and parsing is driven
solely by that extension: a `.tsv` file is parsed with tab as the field
delimiter and every other discovered file with comma, with no delimiter
sniffing, in both the single-file and the multi-file branch. -/
theorem c6_extension_driven :
    (∀ (d : List DirEntry) (n : String),
        n ∈ (listdir d).filter isDataFile ↔
          n ∈ listdir d ∧
            (endsWithStr (lowerStr n) ".csv" = true ∨
             endsWithStr (lowerStr n) ".tsv" = true))
    ∧ (∀ n, endsWithStr (lowerStr n) ".tsv" = true → sepFor n = '\t')
    ∧ (∀ n, endsWithStr (lowerStr n) ".tsv" = false → sepFor n = ',')
    ∧ (∀ (d : List DirEntry) (n c : String),
        readFile d n = some c →
          parseDataFile d n = .ok (parseTable (sepFor n) c))
    ∧ (∀ (z : ZipArchive) (dir : List DirEntry) (n : String) (concat : Bool),
        (listdir (extractAll z dir)).filter isDataFile = [n] →
          ingest (.zipFile z) dir concat =
            (parseDataFile (extractAll z dir) n, extractAll z dir))
    ∧ (∀ (z : ZipArchive) (dir : List DirEntry) (f1 f2 : String) (rest : List String),
        (listdir (extractAll z dir)).filter isDataFile = f1 :: f2 :: rest →
          ingest (.zipFile z) dir true =
            ((mapExceptList (parseDataFile (extractAll z dir))
                (f1 :: f2 :: rest)).map concatDFs,
             extractAll z dir)) := by
  refine ⟨fun d n => ?_, fun n h => ?_, fun n h => ?_, fun d n c h => ?_,
          fun z dir n concat h => ?_, fun z dir f1 f2 rest h => ?_⟩
  · simp only [List.mem_filter, isDataFile, Bool.or_eq_true]
  · simp [sepFor, h]
  · simp [sepFor, h]
  · simp [parseDataFile, h]
  · show (loadFromDir (extractAll z dir) concat, extractAll z dir) = _
    rw [loadFromDir_of_single _ _ _ h]
  · show (loadFromDir (extractAll z dir) true, extractAll z dir) = _
    rw [loadFromDir_of_multi_concat _ _ _ _ h]

/-- Witness for C6: the single-file branch on a one-TSV ZIP parses that
file with the extension-selected separator. -/
theorem c6_extension_driven_witness :
    ingest (.zipFile zipOneTsv) [] true =
      (parseDataFile (extractAll zipOneTsv []) "data.tsv", extractAll zipOneTsv []) :=
  c6_extension_driven.2.2.2.2.1 zipOneTsv [] "data.tsv" true rfl

/-- C9: Pre-existing `.csv`/`.tsv` entries of a caller-supplied
extraction target participate in discovery exactly like extracted files
(extraction never removes them, and discovery filters the joint
listing); in particular an archive containing exactly one CSV, ingested
into a directory already holding another CSV, takes the multi-file
branch: `concat=false` fails with `MultipleFilesError` and the default
call merges the pre-existing rows into the returned table. -/
theorem c9_preexisting_files_participate :
    (∀ (z : ZipArchive) (dir : List DirEntry) (n : String),
        n ∈ listdir dir → n ∈ listdir (extractAll z dir))
    ∧ (∀ (z : ZipArchive) (dir : List DirEntry) (n : String),
        n ∈ listdir dir → isDataFile n = true →
          n ∈ (listdir (extractAll z dir)).filter isDataFile)
    ∧ ingest (.zipFile zipOneCsv) preDir false =
        (.error .multipleFiles,
         [.file "pre.csv" "x,y\n1,2\n", .file "a.csv" "x,y\n3,4\n"])
    ∧ ingest (.zipFile zipOneCsv) preDir true =
        (.ok ⟨["x","y"], [[some "1", some "2"], [some "3", some "4"]]⟩,
         [.file "pre.csv" "x,y\n1,2\n", .file "a.csv" "x,y\n3,4\n"]) :=
  ⟨fun z dir n h => mem_listdir_insertAll _ _ _ h,
   fun z dir n h hd => List.mem_filter.mpr ⟨mem_listdir_insertAll _ _ _ h, hd⟩,
   rfl, rfl⟩

/-- Witness for C9: the pre-existing CSV of `preDir` is discovered after
extracting `zipOneCsv` over it. -/
theorem c9_preexisting_files_participate_witness :
    "pre.csv" ∈ (listdir (extractAll zipOneCsv preDir)).filter isDataFile :=
  c9_preexisting_files_participate.2.1 zipOneCsv preDir "pre.csv" (by decide) (by decide)

lemma splitOnCl_of_not_mem (sep : Char) (cs : List Char)
    (h : cs.any (fun x => x == sep) = false) : splitOnCl sep cs = [cs] := by
  induction cs with
  | nil => rfl
  | cons c tl ih =>
      rw [List.any_cons, Bool.or_eq_false_iff] at h
      have h1 : ¬ c = sep := by simpa using h.1
      unfold splitOnCl
      rw [ih h.2]
      simp [h1]

/-- A name without a separator is its own first path component. -/
lemma topName_of_flat (s : String) (h : containsChar s '/' = false) :
    topName s = s := by
  unfold topName splitOnChar
  rw [splitOnCl_of_not_mem '/' s.data h]
  rfl

/-- The top-level name an extracted entry surfaces under is always the
entry name's first path component (for a flat entry, the name itself). -/
lemma name_toDirEntry (e : String × String) :
    (toDirEntry e).name = topName e.1 := by
  unfold toDirEntry
  by_cases hc : containsChar e.1 '/' = true
  · rw [if_pos hc]
    rfl
  · have hc2 : containsChar e.1 '/' = false := by
      rw [← Bool.not_eq_true]
      exact hc
    rw [if_neg hc, topName_of_flat e.1 hc2]
    rfl

/-- C10: Discovery inspects only the top level of the extraction
directory: a valid ZIP whose tabular entries all lie inside
subdirectories (so that no top-level name — a flat entry's own name or a
nested entry's first path component — ends in `.csv` or `.tsv`) fails
with the no-data-found error when ingested into a fresh target, despite
containing tabular files; flat non-tabular entries are allowed. -/
theorem c10_discovery_top_level_only :
    (∀ (z : ZipArchive) (concat : Bool),
        (∀ e ∈ z.entries, isDataFile (topName e.1) = false) →
        ingest (.zipFile z) [] concat = (.error .noDataFound, extractAll z []))
    ∧ ingest (.zipFile zipNestedFlat) [] true =
        (.error .noDataFound, [.file "readme.txt" "hello", .subdir "sub"])
    ∧ ingest (.zipFile zipNestedCsv) [] true =
        (.error .noDataFound, [.subdir "sub"]) := by
  refine ⟨?_, rfl, rfl⟩
  intro z concat hno
  show (loadFromDir (extractAll z []) concat, extractAll z []) = _
  rw [loadFromDir_of_no_data]
  rw [List.filter_eq_nil_iff]
  intro n hn
  rcases mem_listdir_insertAll_src _ _ _ hn with h | h
  · simp [listdir] at h
  · obtain ⟨y, hy, rfl⟩ := List.mem_map.mp h
    obtain ⟨e, he, rfl⟩ := List.mem_map.mp hy
    rw [name_toDirEntry]
    simp [hno e he]

/-- Witness for C10 at a ZIP holding a top-level `readme.txt` and a CSV
inside `sub/`. -/
theorem c10_discovery_top_level_only_witness :
    ingest (.zipFile zipNestedFlat) [] false =
      (.error .noDataFound, extractAll zipNestedFlat []) :=
  c10_discovery_top_level_only.1 zipNestedFlat false (by decide)

/-! ### Lemmas for the concatenation policy -/

lemma map_eq_self_of_forall {α : Type} {l : List α} {f : α → α}
    (h : ∀ a ∈ l, f a = a) : l.map f = l := by
  induction l with
  | nil => rfl
  | cons a tl ih =>
      rw [List.map_cons, h a (List.mem_cons_self a tl),
        ih (fun b hb => h b (List.mem_cons_of_mem a hb))]

lemma flatMap_eq_of_forall {α β : Type} {l : List α} {f g : α → List β}
    (h : ∀ a ∈ l, f a = g a) : l.flatMap f = l.flatMap g := by
  induction l with
  | nil => rfl
  | cons a tl ih =>
      rw [List.flatMap_cons, List.flatMap_cons, h a (List.mem_cons_self a tl),
        ih (fun b hb => h b (List.mem_cons_of_mem a hb))]

lemma mapExceptList_ok_length (f : α → Except IngestError DataFrame)
    (l : List α) (ys : List DataFrame)
    (h : mapExceptList f l = .ok ys) : ys.length = l.length := by
  induction l generalizing ys with
  | nil =>
      unfold mapExceptList at h
      injection h with h
      rw [← h]
      rfl
  | cons a as ih =>
      unfold mapExceptList at h
      cases hf : f a with
      | error e => rw [hf] at h; cases h
      | ok b =>
          rw [hf] at h
          cases hm : mapExceptList f as with
          | error e => rw [hm] at h; cases h
          | ok bs =>
              rw [hm] at h
              injection h with h
              rw [← h, List.length_cons, List.length_cons, ih bs hm]

lemma colIndex_get (c : List String) (hn : c.Nodup) (i : Nat) (hi : i < c.length) :
    colIndex c (c.get ⟨i, hi⟩) = some i := by
  induction c generalizing i with
  | nil => simp at hi
  | cons a tl ih =>
      cases i with
      | zero => simp [colIndex]
      | succ j =>
          have hj : j < tl.length := by simpa using hi
          have hmem : tl.get ⟨j, hj⟩ ∈ tl := List.get_mem tl j hj
          have ha : ¬ a = tl.get ⟨j, hj⟩ := by
            intro he
            exact (List.nodup_cons.mp hn).1 (he ▸ hmem)
          show colIndex (a :: tl) (tl.get ⟨j, hj⟩) = some (j + 1)
          unfold colIndex
          rw [if_neg ha, ih (List.nodup_cons.mp hn).2 j hj]
          rfl

lemma alignRow_self (c : List String) (r : List (Option String))
    (hn : c.Nodup) (hl : r.length = c.length) : alignRow c c r = r := by
  apply List.ext_getElem
  · simp [alignRow, hl]
  · intro i h1 h2
    have hic : i < c.length := by simpa [alignRow] using h1
    have hco := colIndex_get c hn i hic
    rw [List.get_eq_getElem] at hco
    simp only [alignRow, List.getElem_map]
    rw [hco]
    show (r.get? i).getD none = r[i]
    rw [List.get?_eq_getElem?, List.getElem?_eq_getElem h2]
    rfl

lemma addCols_nil_left (c : List String) : addCols [] c = c := by
  unfold addCols
  rw [List.nil_append, List.filter_eq_self.mpr]
  intro a _
  rfl

lemma addCols_self (c : List String) : addCols c c = c := by
  unfold addCols
  have h : c.filter (fun x => !(c.contains x)) = [] := by
    rw [List.filter_eq_nil_iff]
    intro a ha
    simp [ha]
  rw [h, List.append_nil]

lemma foldl_addCols_fixed (c : List String) (ds : List DataFrame)
    (hc : ∀ d ∈ ds, d.columns = c) :
    ds.foldl (fun acc d => addCols acc d.columns) c = c := by
  induction ds with
  | nil => rfl
  | cons d tl ih =>
      show List.foldl _ (addCols c d.columns) tl = c
      rw [hc d (List.mem_cons_self d tl), addCols_self]
      exact ih (fun d' hd' => hc d' (List.mem_cons_of_mem d hd'))

lemma unionCols_const (c : List String) (d0 : DataFrame) (ds : List DataFrame)
    (hc : ∀ d ∈ (d0 :: ds), d.columns = c) :
    unionCols (d0 :: ds) = c := by
  show List.foldl _ (addCols [] d0.columns) ds = c
  rw [hc d0 (List.mem_cons_self _ _), addCols_nil_left]
  exact foldl_addCols_fixed c ds (fun d hd => hc d (List.mem_cons_of_mem _ hd))

lemma concatDFs_const (c : List String) (d0 : DataFrame) (ds : List DataFrame)
    (hn : c.Nodup)
    (hc : ∀ d ∈ (d0 :: ds), d.columns = c)
    (hr : ∀ d ∈ (d0 :: ds), ∀ r ∈ d.rows, r.length = c.length) :
    concatDFs (d0 :: ds) = ⟨c, (d0 :: ds).flatMap DataFrame.rows⟩ := by
  unfold concatDFs
  rw [unionCols_const c d0 ds hc]
  congr 1
  apply flatMap_eq_of_forall
  intro d hd
  rw [hc d hd]
  exact map_eq_self_of_forall (fun r hrr => alignRow_self c r hn (hr d hd r hrr))

/-- C2: For every ingestion call with `concat = true` where more than
one tabular file is discovered, every discovered file is parsed
independently and the resulting tables are vertically stacked in
file-discovery order, the row index being the fresh contiguous list
position (stated here for schema-compatible files; the outer-join
column alignment with missing-value gaps is exhibited on the
mixed-schema fixture); in particular two CSVs with identical columns
`x,y` of 2 rows each yield 4 rows with columns `["x","y"]` in
file-discovery order. -/
theorem c2_concat_stacks_in_order :
    (∀ (z : ZipArchive) (dir : List DirEntry) (dfs : List DataFrame) (c : List String),
        mapExceptList (parseDataFile (extractAll z dir))
            ((listdir (extractAll z dir)).filter isDataFile) = .ok dfs →
        2 ≤ dfs.length → c.Nodup →
        (∀ d ∈ dfs, d.columns = c) →
        (∀ d ∈ dfs, ∀ r ∈ d.rows, r.length = c.length) →
        ingest (.zipFile z) dir true =
          (.ok ⟨c, dfs.flatMap DataFrame.rows⟩, extractAll z dir))
    ∧ ingest (.zipFile zipTwoCsv) [] true =
        (.ok ⟨["x", "y"],
              [[some "10", some "100"], [some "20", some "200"],
               [some "30", some "300"], [some "40", some "400"]]⟩,
         [.file "one.csv" "x,y\n10,100\n20,200\n",
          .file "two.csv" "x,y\n30,300\n40,400\n"])
    ∧ ingest (.zipFile zipMixedCols) [] true =
        (.ok ⟨["x", "y"], [[some "1", none], [none, some "2"]]⟩,
         [.file "a.csv" "x\n1\n", .file "b.csv" "y\n2\n"]) := by
  refine ⟨?_, rfl, rfl⟩
  intro z dir dfs c hmap hlen hnodup hc hr
  have hflen : ((listdir (extractAll z dir)).filter isDataFile).length = dfs.length :=
    (mapExceptList_ok_length _ _ _ hmap).symm
  rcases hfs : (listdir (extractAll z dir)).filter isDataFile with _ | ⟨f1, _ | ⟨f2, rest⟩⟩
  · rw [hfs] at hflen; simp at hflen; omega
  · rw [hfs] at hflen; simp at hflen; omega
  · show (loadFromDir (extractAll z dir) true, extractAll z dir) = _
    rw [loadFromDir_of_multi_concat _ _ _ _ hfs]
    rw [hfs] at hmap
    rw [hmap]
    show (Except.ok (concatDFs dfs), _) = _
    rcases dfs with _ | ⟨d0, ds⟩
    · simp at hlen
    · rw [concatDFs_const c d0 ds hnodup hc hr]

/-- Witness for C2 at the two-CSV ZIP, discharging the schema
hypotheses by evaluation. -/
theorem c2_concat_stacks_in_order_witness :
    ingest (.zipFile zipTwoCsv) [] true =
      (.ok ⟨["x", "y"], [dfOne, dfTwo].flatMap DataFrame.rows⟩,
       extractAll zipTwoCsv []) :=
  c2_concat_stacks_in_order.1 zipTwoCsv [] [dfOne, dfTwo] ["x", "y"]
    rfl (by decide) (by decide) (by decide) (by decide)

/-! ### Lemmas for idempotence of extraction

Replaying the same batch of writes over a directory that already
absorbed it changes nothing: every name the batch touches is present
(so every replayed write is an in-place overwrite), and each such name
already holds the batch's last write for it. -/

lemma lastFor_append (ys : List DirEntry) (y0 : DirEntry) (n : String) :
    lastFor (ys ++ [y0]) n = if y0.name = n then some y0 else lastFor ys n := by
  induction ys with
  | nil => rfl
  | cons y tl ih =>
      show lastFor (y :: (tl ++ [y0])) n = _
      unfold lastFor
      rw [ih]
      by_cases h : y0.name = n
      · simp [h]
      · simp [h, lastFor]

lemma eq_lastFor_of_mem_insertAll (ys : List DirEntry) :
    ∀ (d : List DirEntry) (x y : DirEntry),
      x ∈ insertAll d ys → lastFor ys x.name = some y → x = y := by
  induction ys using List.reverseRecOn with
  | nil =>
      intro d x y _ hl
      simp [lastFor] at hl
  | append_singleton ys y0 ih =>
      intro d x y hx hl
      rw [lastFor_append] at hl
      have hins : insertAll d (ys ++ [y0]) = insertEntry (insertAll d ys) y0 := by
        simp [insertAll, List.foldl_append]
      rw [hins] at hx
      unfold insertEntry at hx
      split at hx
      · next hcont =>
          obtain ⟨x', hx', hrep⟩ := List.mem_map.mp hx
          by_cases he : x'.name = y0.name
          · have hx0 : x = y0 := by rw [← hrep]; simp [replaceEntry, he]
            rw [hx0] at hl ⊢
            rw [if_pos rfl] at hl
            exact Option.some.inj hl
          · have hx0 : x = x' := by rw [← hrep]; simp [replaceEntry, he]
            have hne : ¬ y0.name = x.name := by
              rw [hx0]
              exact fun hh => he hh.symm
            rw [if_neg hne] at hl
            have hx2 : x ∈ insertAll d ys := by rw [hx0]; exact hx'
            exact ih d x y hx2 hl
      · next hcont =>
          rcases List.mem_append.mp hx with hx' | hx'
          · have hne : ¬ y0.name = x.name := by
              intro hh
              exact hcont ((contains_iff_mem _ _).mpr
                (hh ▸ List.mem_map_of_mem DirEntry.name hx'))
            rw [if_neg hne] at hl
            exact ih d x y hx' hl
          · have hx0 : x = y0 := List.mem_singleton.mp hx'
            rw [hx0] at hl ⊢
            rw [if_pos rfl] at hl
            exact Option.some.inj hl

lemma overrideLast_replaceEntry (tl : List DirEntry) (y x : DirEntry) :
    overrideLast tl (replaceEntry y x) = overrideLast (y :: tl) x := by
  have hcons : lastFor (y :: tl) x.name =
      match lastFor tl x.name with
      | some r => some r
      | none => if y.name = x.name then some y else none := rfl
  unfold overrideLast
  rw [name_replaceEntry, hcons]
  cases h : lastFor tl x.name with
  | some r => rfl
  | none =>
      by_cases he : y.name = x.name
      · rw [if_pos he]
        show replaceEntry y x = y
        unfold replaceEntry
        rw [if_pos he.symm]
      · rw [if_neg he]
        show replaceEntry y x = x
        unfold replaceEntry
        rw [if_neg (fun hh => he hh.symm)]

lemma insertAll_of_covered (ys : List DirEntry) :
    ∀ (d : List DirEntry), (∀ y ∈ ys, y.name ∈ listdir d) →
      insertAll d ys = d.map (overrideLast ys) := by
  induction ys with
  | nil =>
      intro d _
      exact (map_eq_self_of_forall (fun x _ => rfl)).symm
  | cons y tl ih =>
      intro d hcov
      have hy : y.name ∈ listdir d := hcov y (List.mem_cons_self _ _)
      show insertAll (insertEntry d y) tl = _
      have hrep : insertEntry d y = d.map (replaceEntry y) := by
        unfold insertEntry
        rw [if_pos ((contains_iff_mem _ _).mpr hy)]
      rw [hrep, ih (d.map (replaceEntry y)) (fun y' hy' => by
        rw [listdir_map_replace]
        exact hcov y' (List.mem_cons_of_mem _ hy'))]
      rw [List.map_map]
      congr 1
      funext x
      exact overrideLast_replaceEntry tl y x

lemma insertAll_replay (d ys : List DirEntry) :
    insertAll (insertAll d ys) ys = insertAll d ys := by
  rw [insertAll_of_covered ys (insertAll d ys)
    (fun y hy => name_mem_listdir_insertAll ys d y hy)]
  apply map_eq_self_of_forall
  intro x hx
  unfold overrideLast
  cases h : lastFor ys x.name with
  | none => rfl
  | some y =>
      have hxy := eq_lastFor_of_mem_insertAll ys d x y hx h
      rw [hxy]

/-- Re-running extraction of the same archive over its own output is a
no-op on the directory. -/
lemma extractAll_idem (z : ZipArchive) (d : List DirEntry) :
    extractAll z (extractAll z d) = extractAll z d :=
  insertAll_replay d (z.entries.map toDirEntry)

/-- C8: Ingestion with an explicit, caller-supplied extraction target is
idempotent and deterministic: a repeated call with the same archive
against the extraction target as the first call left it returns the
identical unified table (and leaves the directory unchanged) — there is
no hidden mutable state besides the extraction directory, and replayed
extraction rewrites the same contents. -/
theorem c8_ingest_idempotent (z : ZipArchive) (dir : List DirEntry) (concat : Bool)
    (df : DataFrame) (d1 : List DirEntry)
    (h : ingest (.zipFile z) dir concat = (.ok df, d1)) :
    ingest (.zipFile z) d1 concat = (.ok df, d1) := by
  have h1 : extractAll z dir = d1 := congrArg Prod.snd h
  have h2 : loadFromDir (extractAll z dir) concat = .ok df := congrArg Prod.fst h
  subst h1
  show (loadFromDir (extractAll z (extractAll z dir)) concat,
        extractAll z (extractAll z dir)) = _
  rw [extractAll_idem, h2]

/-- Witness for C8: re-ingesting the two-CSV ZIP against the directory
the first call produced returns the same table. -/
theorem c8_ingest_idempotent_witness :
    ingest (.zipFile zipTwoCsv)
        [.file "one.csv" "x,y\n10,100\n20,200\n",
         .file "two.csv" "x,y\n30,300\n40,400\n"] true =
      (.ok ⟨["x", "y"],
            [[some "10", some "100"], [some "20", some "200"],
             [some "30", some "300"], [some "40", some "400"]]⟩,
       [.file "one.csv" "x,y\n10,100\n20,200\n",
        .file "two.csv" "x,y\n30,300\n40,400\n"]) :=
  c8_ingest_idempotent zipTwoCsv [] true _ _ rfl

end IngestData
